import Mathlib

/-!
Verification development for the Anny-body-fitter fitting core.

The iterative fitting algorithm (`anny.parameters_regressor.ParametersRegressor`)
and the measurement module (`anny.anthropometry.Anthropometry`) are external to
the repository's `src` tree: only their tests, their caller
(`src/fitting/parameter_optimizer.py`) and the specification describe them.
Those parts are therefore modelled from the specification, as stated in each
doc comment.  `ParameterOptimizer` itself is translated from
`src/fitting/parameter_optimizer.py`.

Numbers are modelled as rationals; the closed-form numeric kernels
(weighted Procrustes/SVD registration, the regularized least-squares solve,
the finite-difference Jacobian evaluation and the mean reconstruction error)
are oracle fields of the configuration, since their real-valued linear
algebra is not expressible exactly over the rationals.  Every structural
behaviour the claims speak about (initialization, iteration, clamping,
exclusion, sanitization, root-only global adjustment, anchor search) is
modelled concretely.
-/

/-- A homogeneous 4x4 transform over the rationals, modelling one joint's
pose entry of the `[B, J, 4, 4]` pose tensor. -/
abbrev M4 := Matrix (Fin 4) (Fin 4) ℚ

/-- A 3D point with rational coordinates. -/
abbrev Vec3 := ℚ × ℚ × ℚ

/-- Modelled from the spec: a floating-point scalar as produced during the
finite-difference Jacobian computation, which is either a finite value or one
of the non-finite IEEE values (NaN, +Inf, -Inf). -/
inductive FVal where
  | fin : ℚ → FVal
  | nan : FVal
  | posInf : FVal
  | negInf : FVal
deriving DecidableEq

/-- True exactly on finite values. -/
def FVal.isFinite : FVal → Bool
  | .fin _ => true
  | _ => false

/-- Modelled from the spec: `torch.nan_to_num`-style sanitization of one
Jacobian entry — a finite value passes through, every non-finite value is
replaced by 0 ("no local sensitivity"). -/
def fvalToRat : FVal → ℚ
  | .fin q => q
  | _ => 0

/-- Modelled from the spec (section 4.4): entrywise sanitization of the raw
finite-difference Jacobian before it reaches the solver. -/
def sanitizeJacobian (raw : List (List FVal)) : List (List ℚ) :=
  raw.map (List.map fvalToRat)

/-- The larger of two rationals, written so that it evaluates by cases on the
decidable order. -/
def rmax (a b : ℚ) : ℚ := if a ≤ b then b else a

/-- The smaller of two rationals, written so that it evaluates by cases on the
decidable order. -/
def rmin (a b : ℚ) : ℚ := if a ≤ b then a else b

/-- Modelled from the spec (section 4.5): after the solve the update is applied
and every phenotype entry is clamped to the closed interval `[0.01, 0.99]`. -/
def clampPhenotype (q : ℚ) : ℚ :=
  rmax (1 / 100) (rmin (99 / 100) q)

/-- Modelled from the spec (section 4.6, Init): a caller-supplied initial
phenotype guess is a name-keyed dictionary; lookup of a name returns the first
value bound to it, if any. -/
def lookupGuess : List (String × ℚ) → String → Option ℚ
  | [], _ => none
  | p :: rest, name => if p.1 = name then some p.2 else lookupGuess rest name

/-- Modelled from the spec (section 4.6, Init): the initial phenotype vector is
0.5 per label, overridable per caller-supplied initial guess. -/
def initPhenotype (guess : List (String × ℚ)) : String → ℚ :=
  fun name =>
    match lookupGuess guess name with
    | some v => v
    | none => 1 / 2

/-- Modelled from the spec: the configuration of the fitting loop.  `forward`
is the external BodyModel forward evaluation (section 6).  `register` is the
joint-wise weighted-Procrustes registration producing a candidate pose and the
registered vertices (section 4.2); `globalReg` is the whole-mesh Procrustes
transform (section 4.3); `rawJacobian` the finite-difference sensitivity
evaluation, which may produce non-finite entries (section 4.4); `solve` the
regularized least-squares solve mapping the (sanitized) Jacobian, reference
and target to a per-name update (section 4.5); `err` the mean reconstruction
error over sampled vertices (section 4.7).  These numeric kernels are kept as
oracles; the claims settled here do not depend on their values. -/
structure FitConfig (V : Type) where
  labels : List String
  forward : (ℕ → M4) → (String → ℚ) → V
  register : (ℕ → M4) → V → V → List ℕ → ((ℕ → M4) × V)
  globalReg : V → V → M4
  rawJacobian : (ℕ → M4) → (String → ℚ) → V → V → List ℕ → List (List FVal)
  solve : List (List ℚ) → V → V → String → ℚ
  err : V → V → ℚ

/-- Modelled from the spec: the arguments of one call of the fitting loop
(`ParametersRegressor.__call__`): target vertices, optional initial phenotype
guess, excluded names, the `optimize_phenotypes` flag, the iteration budget
`max_n_iters` and the fixed/seeded vertex subsample indices. -/
structure FitInput (V : Type) where
  target : V
  initGuess : List (String × ℚ)
  excluded : List String
  optimize : Bool
  maxIters : ℕ
  sampleIdx : List ℕ

/-- Modelled from the spec (section 4.6): the loop state — per-joint pose
transforms, the phenotype dictionary, the current reconstructed vertices, and
an iteration counter instrumenting how many loop iterations have executed. -/
structure FitState (V : Type) where
  pose : ℕ → M4
  phen : String → ℚ
  verts : V
  itersDone : ℕ

/-- Modelled from the spec (section 4.6, Init): identity pose per joint,
initial phenotype, one forward evaluation for the initial reference mesh. -/
def initFitState {V : Type} (cfg : FitConfig V) (inp : FitInput V) : FitState V :=
  let phen0 := initPhenotype inp.initGuess
  { pose := fun _ => 1
    phen := phen0
    verts := cfg.forward (fun _ => 1) phen0
    itersDone := 0 }

/-- Modelled from the spec (section 4.3): the global rigid adjustment is
composed onto the root joint's transform (index 0) only; every other joint's
transform is returned unchanged. -/
def applyGlobalAdjustment (pose : ℕ → M4) (t : M4) : ℕ → M4 :=
  fun j => if j = 0 then t * pose 0 else pose j

/-- Modelled from the spec (section 4.6, step 2): one iteration of the fitting
loop — (a) joint-wise registration on the subsample, (b) global adjustment of
the root joint only, (c) forward re-evaluation, (d) if enabled, Jacobian
computation (sanitized entrywise before solving), solve, per-name update with
clamping — names marked excluded are held fixed (their Jacobian column is
zeroed/omitted so the solve leaves them unchanged) — and (e) forward
re-evaluation with the updated parameters. -/
def fitStep {V : Type} (cfg : FitConfig V) (inp : FitInput V) (s : FitState V) : FitState V :=
  let reg := cfg.register s.pose s.verts inp.target inp.sampleIdx
  let poseB := applyGlobalAdjustment reg.1 (cfg.globalReg reg.2 inp.target)
  let vRef := cfg.forward poseB s.phen
  let phen1 :=
    if inp.optimize then
      let jac := sanitizeJacobian (cfg.rawJacobian poseB s.phen vRef inp.target inp.sampleIdx)
      let delta := cfg.solve jac vRef inp.target
      fun name =>
        if name ∈ inp.excluded then s.phen name
        else clampPhenotype (s.phen name + delta name)
    else s.phen
  { pose := poseB
    phen := phen1
    verts := cfg.forward poseB phen1
    itersDone := s.itersDone + 1 }

/-- Modelled from the spec (section 4.6): the loop always runs the configured
iteration count — no adaptive convergence early exit — and returns the final
state (pose, phenotype, reconstructed vertices). -/
def runFit {V : Type} (cfg : FitConfig V) (inp : FitInput V) : FitState V :=
  (fitStep cfg inp)^[inp.maxIters] (initFitState cfg inp)

/-- Modelled from the spec: the default iteration budget of the regressor. -/
def defaultMaxNIters : ℕ := 5

/-- Modelled from the spec (section 4.6, state machine): the run relation of
the fitting loop — `FitRun cfg inp n s t` holds when the loop carries state
`s` to state `t` in exactly `n` iterations. -/
inductive FitRun {V : Type} (cfg : FitConfig V) (inp : FitInput V) :
    ℕ → FitState V → FitState V → Prop where
  | base (s : FitState V) : FitRun cfg inp 0 s s
  | step {n : ℕ} {s t : FitState V} :
      FitRun cfg inp n s t → FitRun cfg inp (n + 1) s (fitStep cfg inp t)

/-- Modelled from the spec (section 4.7): pinning the age to an anchor value
in the initial guess; the prepended binding wins the dictionary lookup. -/
def setAge (guess : List (String × ℚ)) (a : ℚ) : List (String × ℚ) :=
  ("age", a) :: guess

/-- Modelled from the spec (section 4.7): one anchor run of the age-anchor
search — the full fitting loop with the age pinned to the anchor in the
initial guess and excluded from optimization. -/
def anchorRun {V : Type} (cfg : FitConfig V) (inp : FitInput V) (a : ℚ) : FitState V :=
  runFit cfg { inp with initGuess := setAge inp.initGuess a, excluded := "age" :: inp.excluded }

/-- Modelled from the spec (section 4.7): the mean reconstruction error of a
loop state against the target, via the error oracle. -/
def errOf {V : Type} (cfg : FitConfig V) (inp : FitInput V) (s : FitState V) : ℚ :=
  cfg.err s.verts inp.target

/-- Modelled from the spec (section 4.7): among the anchor runs for the
anchors `a0 :: rest`, the one with the lowest mean reconstruction error. -/
def bestAnchorState {V : Type} (cfg : FitConfig V) (inp : FitInput V)
    (a0 : ℚ) (rest : List ℚ) : FitState V :=
  rest.foldl
    (fun best a =>
      if errOf cfg inp (anchorRun cfg inp a) < errOf cfg inp best then anchorRun cfg inp a
      else best)
    (anchorRun cfg inp a0)

/-- Modelled from the spec (section 4.7): a phenotype dictionary turned back
into an initial-guess list over the model's declared labels. -/
def phenToGuess (labels : List String) (phen : String → ℚ) : List (String × ℚ) :=
  labels.map (fun l => (l, phen l))

/-- Modelled from the spec (section 4.7, `fit_with_age_anchor_search`): run
the loop once per anchor with age pinned, pick the lowest-error anchor, then
run one more full fitting loop from that result's phenotype with the age
unpinned (excluded set back to the caller's). -/
def fitWithAgeAnchorSearch {V : Type} (cfg : FitConfig V) (inp : FitInput V)
    (a0 : ℚ) (rest : List ℚ) : FitState V :=
  runFit cfg
    { inp with initGuess := phenToGuess cfg.labels (bestAnchorState cfg inp a0 rest).phen }

/-- Modelled from the spec (section 4.8): the static model data the
Anthropometry module consumes at construction — the model's vertex-index set
and its triangulated faces. -/
structure AnthroModelData where
  baseMeshVertexIndices : List ℕ
  triangularFaces : List (ℕ × ℕ × ℕ)

/-- Modelled from the spec (section 4.8): the constructed Anthropometry
module, holding the validated waist-ring indices and the faces. -/
structure AnthroState where
  waistVertexIndices : List ℕ
  triangularFaces : List (ℕ × ℕ × ℕ)

/-- Modelled from the spec (section 4.8): constructing the Anthropometry
module checks, once at construction time and before any measurement call,
that every index of the fixed waist ring is present in the model's vertex
set; a missing index is a fatal configuration error. -/
def constructAnthropometry (waistRing : List ℕ) (m : AnthroModelData) :
    Except String AnthroState :=
  if waistRing.all (fun i => decide (i ∈ m.baseMeshVertexIndices)) then
    .ok { waistVertexIndices := waistRing, triangularFaces := m.triangularFaces }
  else
    .error "Base mesh vertex indices do not contain all waist vertices"

/-- True exactly when construction succeeded. -/
def anthroConstructionOk (r : Except String AnthroState) : Bool :=
  match r with
  | .ok _ => true
  | .error _ => false

/-- The z coordinate of a point. -/
def zOf (p : Vec3) : ℚ := p.2.2

/-- Modelled from the spec (section 4.8): the maximum z coordinate over a
vertex list. -/
def maxZ : List Vec3 → ℚ
  | [] => 0
  | p :: rest => rest.foldl (fun m q => rmax m (zOf q)) (zOf p)

/-- Modelled from the spec (section 4.8): the minimum z coordinate over a
vertex list. -/
def minZ : List Vec3 → ℚ
  | [] => 0
  | p :: rest => rest.foldl (fun m q => rmin m (zOf q)) (zOf p)

/-- Modelled from the spec (section 4.8): height = max(z) - min(z) over all
vertices. -/
def heightMeasure (v : List Vec3) : ℚ := maxZ v - minZ v

/-- Vertex lookup by index, defaulting to the origin. -/
def getVertex (v : List Vec3) (i : ℕ) : Vec3 := v.getD i (0, 0, 0)

/-- Modelled from the spec (section 4.8): six times the signed volume of the
tetrahedron spanned by the origin and one triangular face — the 3x3
determinant of the face's vertices. -/
def signedTetra (a b c : Vec3) : ℚ :=
  a.1 * (b.2.1 * c.2.2 - b.2.2 * c.2.1)
    - a.2.1 * (b.1 * c.2.2 - b.2.2 * c.1)
    + a.2.2 * (b.1 * c.2.1 - b.2.1 * c.1)

/-- Modelled from the spec (section 4.8): closed-mesh volume via the
divergence theorem over triangulated faces — sum of signed tetrahedron
volumes, absolute value since the winding is not guaranteed canonical. -/
def volumeMeasure (faces : List (ℕ × ℕ × ℕ)) (v : List Vec3) : ℚ :=
  |faces.foldl
      (fun acc f =>
        acc + signedTetra (getVertex v f.1) (getVertex v f.2.1) (getVertex v f.2.2))
      0| / 6

/-- Modelled from the spec (section 4.8): the fixed body-density constant. -/
def densityConstant : ℚ := 980

/-- Modelled from the spec (section 4.8): mass = volume times the fixed
density constant. -/
def massMeasure (faces : List (ℕ × ℕ × ℕ)) (v : List Vec3) : ℚ :=
  densityConstant * volumeMeasure faces v

/-- Modelled from the spec (section 4.8): bmi = mass / height^2, recomputing
mass and height from the vertex batch exactly as the separate measurement
functions do. -/
def bmiMeasure (faces : List (ℕ × ℕ × ℕ)) (v : List Vec3) : ℚ :=
  massMeasure faces v / (heightMeasure v) ^ 2

/-- Modelled from the spec (section 4.8): waist circumference = sum of edge
lengths around the ordered waist ring, closing the ring.  The Euclidean edge
length needs square roots, so it is taken as an oracle `elen`. -/
def waistMeasure (elen : Vec3 → Vec3 → ℚ) (waist : List ℕ) (v : List Vec3) : ℚ :=
  match waist with
  | [] => 0
  | i0 :: _ =>
    (List.zip waist (waist.drop 1 ++ [i0])).foldl
      (fun acc e => acc + elen (getVertex v e.1) (getVertex v e.2)) 0

/-- The dictionary of measurements returned by one Anthropometry call. -/
structure MeasurementDict where
  height : ℚ
  waistCircumference : ℚ
  volume : ℚ
  mass : ℚ
  bmi : ℚ

/-- Modelled from the spec (section 4.8, `Anthropometry.__call__`): all five
measurements of a vertex batch, each computed by its own measurement
function from the same vertices. -/
def anthroCall (elen : Vec3 → Vec3 → ℚ) (st : AnthroState) (v : List Vec3) :
    MeasurementDict :=
  { height := heightMeasure v
    waistCircumference := waistMeasure elen st.waistVertexIndices v
    volume := volumeMeasure st.triangularFaces v
    mass := massMeasure st.triangularFaces v
    bmi := bmiMeasure st.triangularFaces v }

/-- The default confidence threshold of `ParameterOptimizer.__init__`
(`src/fitting/parameter_optimizer.py`). -/
def defaultConfidenceThreshold : ℚ := 1 / 2

/-- Translated from `ParameterOptimizer.optimize`
(`src/fitting/parameter_optimizer.py`, lines 59-65): the names passed to the
regressor as `excluded_phenotypes` — the empty list when no confidences are
given, otherwise the names whose confidence is strictly below the
threshold. -/
def computeExcludedPhenotypes (confidences : Option (List (String × ℚ)))
    (threshold : ℚ) : List String :=
  match confidences with
  | none => []
  | some cs => (cs.filter (fun pc => decide (pc.2 < threshold))).map Prod.fst


/-- A phenotype scalar within the clamp interval `[0.01, 0.99]`. -/
def phenInRange (q : ℚ) : Prop := 1 / 100 ≤ q ∧ q ≤ 99 / 100

/-- A concrete instantiation of the fitting configuration used to evaluate
the modelled loop on explicit inputs: the vertex batch is a single rational,
the forward model returns the age phenotype, registration and global
alignment are trivial, the solver oracle proposes a unit update, and the
reconstruction error is the squared distance to the target. -/
def trivialCfg : FitConfig ℚ :=
  { labels := ["age"]
    forward := fun _ phen => phen "age"
    register := fun p v _ _ => (p, v)
    globalReg := fun _ _ => 1
    rawJacobian := fun _ _ _ _ _ => []
    solve := fun _ _ _ _ => 1
    err := fun v t => (v - t) ^ 2 }

/-- The trivial configuration with a zero error oracle. -/
def errZeroCfg : FitConfig ℚ :=
  { trivialCfg with err := fun _ _ => 0 }

/-- A call with a zero iteration budget and an out-of-range initial guess. -/
def inpClampCex : FitInput ℚ :=
  { target := 0, initGuess := [("age", 2)], excluded := [], optimize := true
    maxIters := 0, sampleIdx := [] }

/-- A default call with one iteration. -/
def inpClampWit : FitInput ℚ :=
  { target := 0, initGuess := [], excluded := [], optimize := true
    maxIters := 1, sampleIdx := [] }

/-- A call excluding the age phenotype with an in-range initial guess. -/
def inpExclWit : FitInput ℚ :=
  { target := 0, initGuess := [("age", 3 / 10)], excluded := ["age"], optimize := true
    maxIters := 1, sampleIdx := [] }

/-- A two-iteration call with a fixed subsample. -/
def inpDetWit : FitInput ℚ :=
  { target := 0, initGuess := [], excluded := [], optimize := true
    maxIters := 2, sampleIdx := [0, 1] }

/-- A one-iteration call used with the age-anchor search. -/
def inpAnchor : FitInput ℚ :=
  { target := 0, initGuess := [], excluded := [], optimize := true
    maxIters := 1, sampleIdx := [] }

theorem fitStep_itersDone {V : Type} (cfg : FitConfig V) (inp : FitInput V) (s : FitState V) :
    (fitStep cfg inp s).itersDone = s.itersDone + 1 := rfl

theorem iterate_itersDone {V : Type} (cfg : FitConfig V) (inp : FitInput V)
    (n : ℕ) (s : FitState V) :
    ((fitStep cfg inp)^[n] s).itersDone = s.itersDone + n := by
  induction n with
  | zero => simp
  | succ n ih =>
    rw [Function.iterate_succ_apply', fitStep_itersDone, ih]
    omega

/-- C3: for every configuration and every input — any target, any initial
guess, any exclusion set, any flag and any iteration budget — the fitting
loop executes exactly the configured number of iterations (the instrumented
iteration counter of the returned state equals `maxIters`); in particular no
adaptive convergence exit ever shortens the run, and the loop, being a total
function, always returns a pose/phenotype/vertices state. -/
theorem fitting_loop_exact_iteration_count {V : Type} (cfg : FitConfig V) (inp : FitInput V) :
    (runFit cfg inp).itersDone = inp.maxIters := by
  have h := iterate_itersDone cfg inp inp.maxIters (initFitState cfg inp)
  simpa [runFit, initFitState] using h

/-- C5: the global rigid adjustment touches only the root joint — for every
pose, every adjustment transform and every joint index other than 0, the
adjusted pose transform equals the original one. -/
theorem global_adjustment_root_only (pose : ℕ → M4) (t : M4) (j : ℕ) (hj : j ≠ 0) :
    applyGlobalAdjustment pose t j = pose j := by
  simp [applyGlobalAdjustment, hj]

theorem global_adjustment_root_only_witness :
    applyGlobalAdjustment (fun _ => (1 : M4)) (1 : M4) 1 = (1 : M4) :=
  global_adjustment_root_only (fun _ => (1 : M4)) 1 1 (by decide)

/-- C2: constructing the Anthropometry module succeeds exactly when every
index of the fixed waist ring is contained in the model's vertex-index set;
otherwise the construction itself — before any measurement call — returns the
configuration error. -/
theorem waist_ring_construction_check (waistRing : List ℕ) (m : AnthroModelData) :
    anthroConstructionOk (constructAnthropometry waistRing m) = true ↔
      ∀ i ∈ waistRing, i ∈ m.baseMeshVertexIndices := by
  have hcond : (waistRing.all (fun i => decide (i ∈ m.baseMeshVertexIndices)) = true) ↔
      ∀ i ∈ waistRing, i ∈ m.baseMeshVertexIndices := by
    simp [List.all_eq_true]
  rw [constructAnthropometry]
  by_cases h : waistRing.all (fun i => decide (i ∈ m.baseMeshVertexIndices)) = true
  · rw [if_pos h]
    exact ⟨fun _ => hcond.mp h, fun _ => rfl⟩
  · rw [if_neg h]
    exact ⟨fun hfalse => absurd hfalse (by simp [anthroConstructionOk]),
      fun hall => absurd (hcond.mpr hall) h⟩

theorem waist_ring_construction_witness :
    anthroConstructionOk (constructAnthropometry [2, 3] ⟨[0, 1, 2, 3], []⟩) = true :=
  (waist_ring_construction_check [2, 3] ⟨[0, 1, 2, 3], []⟩).mpr (by decide)

/-- C6: for every vertex batch, the bmi entry of the measurement dictionary
returned by one Anthropometry call equals the mass entry divided by the
square of the height entry — each entry being recomputed independently from
the same vertices, exactly as in the module. -/
theorem bmi_mass_height_consistency (elen : Vec3 → Vec3 → ℚ) (st : AnthroState)
    (v : List Vec3) :
    (anthroCall elen st v).bmi
      = (anthroCall elen st v).mass / ((anthroCall elen st v).height) ^ 2 := rfl

theorem le_rmax_left (a b : ℚ) : a ≤ rmax a b := by
  rw [rmax]
  split
  · assumption
  · exact le_refl a

theorem rmax_le {a b c : ℚ} (ha : a ≤ c) (hb : b ≤ c) : rmax a b ≤ c := by
  rw [rmax]
  split
  · exact hb
  · exact ha

theorem rmin_le_left (a b : ℚ) : rmin a b ≤ a := by
  rw [rmin]
  split
  · exact le_refl a
  · exact le_of_not_le (by assumption)

theorem clampPhenotype_range (q : ℚ) : phenInRange (clampPhenotype q) := by
  constructor
  · exact le_rmax_left _ _
  · exact rmax_le (by norm_num) (rmin_le_left _ _)

theorem lookupGuess_mem {guess : List (String × ℚ)} {name : String} {v : ℚ}
    (h : lookupGuess guess name = some v) : (name, v) ∈ guess := by
  induction guess with
  | nil => simp [lookupGuess] at h
  | cons p rest ih =>
    rw [lookupGuess] at h
    by_cases hp : p.1 = name
    · rw [if_pos hp] at h
      injection h with hv
      subst hp
      subst hv
      exact List.mem_cons_self _ _
    · rw [if_neg hp] at h
      exact List.mem_cons_of_mem _ (ih h)

theorem initPhenotype_range {guess : List (String × ℚ)}
    (h : ∀ p ∈ guess, phenInRange p.2) (name : String) :
    phenInRange (initPhenotype guess name) := by
  rw [initPhenotype]
  cases hl : lookupGuess guess name with
  | none => exact ⟨by norm_num, by norm_num⟩
  | some v => exact h (name, v) (lookupGuess_mem hl)

theorem fitStep_phen_excluded {V : Type} (cfg : FitConfig V) (inp : FitInput V)
    (s : FitState V) {name : String} (hmem : name ∈ inp.excluded) :
    (fitStep cfg inp s).phen name = s.phen name := by
  show (if inp.optimize then _ else s.phen) name = s.phen name
  by_cases hopt : inp.optimize
  · rw [if_pos hopt]
    exact if_pos hmem
  · rw [if_neg hopt]

theorem fitStep_phen_range {V : Type} (cfg : FitConfig V) (inp : FitInput V)
    (s : FitState V) (h : ∀ nm, phenInRange (s.phen nm)) (name : String) :
    phenInRange ((fitStep cfg inp s).phen name) := by
  show phenInRange ((if inp.optimize then _ else s.phen) name)
  by_cases hopt : inp.optimize
  · rw [if_pos hopt]
    by_cases hmem : name ∈ inp.excluded
    · rw [if_pos hmem]
      exact h name
    · rw [if_neg hmem]
      exact clampPhenotype_range _
  · rw [if_neg hopt]
    exact h name

theorem fitStep_phen_clamped {V : Type} (cfg : FitConfig V) (inp : FitInput V)
    (s : FitState V) (hopt : inp.optimize = true) {name : String}
    (hmem : name ∉ inp.excluded) :
    phenInRange ((fitStep cfg inp s).phen name) := by
  show phenInRange ((if inp.optimize then _ else s.phen) name)
  rw [if_pos hopt, if_neg hmem]
  exact clampPhenotype_range _

theorem iterate_phen_range {V : Type} (cfg : FitConfig V) (inp : FitInput V)
    (n : ℕ) (s : FitState V) (h : ∀ nm, phenInRange (s.phen nm)) :
    ∀ nm, phenInRange (((fitStep cfg inp)^[n] s).phen nm) := by
  induction n with
  | zero => simpa using h
  | succ n ih =>
    rw [Function.iterate_succ_apply']
    exact fitStep_phen_range cfg inp _ ih

/-- C1 amended: every phenotype scalar returned by the fitting loop lies in
the clamp interval `[0.01, 0.99]` provided every caller-supplied initial value
lies in that interval; without that proviso the invariant still holds for
every non-excluded scalar whenever phenotype optimization is enabled and the
iteration budget is at least one.  (A zero iteration budget, or an excluded
name, returns the raw initial value unclamped — see the counterexample.) -/
theorem clamp_invariant_amended {V : Type} (cfg : FitConfig V) (inp : FitInput V) :
    ((∀ p ∈ inp.initGuess, phenInRange p.2) →
      ∀ name, phenInRange ((runFit cfg inp).phen name))
    ∧ (inp.optimize = true → 1 ≤ inp.maxIters →
      ∀ name, name ∉ inp.excluded → phenInRange ((runFit cfg inp).phen name)) := by
  constructor
  · intro h name
    have hinit : ∀ nm, phenInRange ((initFitState cfg inp).phen nm) := by
      intro nm
      exact initPhenotype_range h nm
    exact iterate_phen_range cfg inp inp.maxIters _ hinit name
  · intro hopt hiter name hmem
    obtain ⟨m, hm⟩ : ∃ m, inp.maxIters = m + 1 := ⟨inp.maxIters - 1, by omega⟩
    rw [runFit, hm, Function.iterate_succ_apply']
    exact fitStep_phen_clamped cfg inp _ hopt hmem

theorem clamp_invariant_amended_witness :
    phenInRange ((runFit trivialCfg inpClampWit).phen "gender") :=
  (clamp_invariant_amended trivialCfg inpClampWit).2 rfl (by norm_num [inpClampWit])
    "gender" (by simp [inpClampWit])

/-- C1 counterexample: a call with iteration budget 0 and the out-of-range
initial guess age = 2 returns the age scalar as 2, which is not below the
upper clamp bound 0.99 — so the clamp invariant does not hold for every
initial guess and every iteration budget. -/
theorem clamp_invariant_counterexample :
    ¬ ((runFit trivialCfg inpClampCex).phen "age" ≤ 99 / 100) := by
  have h : (runFit trivialCfg inpClampCex).phen "age" = 2 := rfl
  rw [h]
  norm_num

theorem iterate_phen_excluded {V : Type} (cfg : FitConfig V) (inp : FitInput V)
    (n : ℕ) (s : FitState V) {name : String} (hmem : name ∈ inp.excluded) :
    ((fitStep cfg inp)^[n] s).phen name = s.phen name := by
  induction n with
  | zero => simp
  | succ n ih =>
    rw [Function.iterate_succ_apply', fitStep_phen_excluded cfg inp _ hmem, ih]

/-- C4: for every fitting call with phenotype optimization enabled, any name
in the exclusion set is returned exactly equal to its initial value — the
caller-supplied initial guess, or the 0.5 default — for every target, budget
and solver behaviour. -/
theorem excluded_phenotype_fixed {V : Type} (cfg : FitConfig V) (inp : FitInput V)
    (_hopt : inp.optimize = true) (name : String) (hmem : name ∈ inp.excluded) :
    (runFit cfg inp).phen name = initPhenotype inp.initGuess name := by
  rw [runFit]
  exact iterate_phen_excluded cfg inp inp.maxIters _ hmem

theorem excluded_phenotype_fixed_witness :
    (runFit trivialCfg inpExclWit).phen "age" = 3 / 10 := by
  have h := excluded_phenotype_fixed trivialCfg inpExclWit rfl "age" (by simp [inpExclWit])
  rw [h]
  rfl

theorem fitRun_unique {V : Type} {cfg : FitConfig V} {inp : FitInput V} :
    ∀ {n : ℕ} {s t t' : FitState V},
      FitRun cfg inp n s t → FitRun cfg inp n s t' → t = t' := by
  intro n s t t' h1
  induction h1 generalizing t' with
  | base s =>
    intro h2
    cases h2
    rfl
  | step h ih =>
    intro h2
    cases h2 with
    | step h' => rw [ih h']

theorem fitRun_iterate {V : Type} (cfg : FitConfig V) (inp : FitInput V)
    (n : ℕ) (s : FitState V) :
    FitRun cfg inp n s ((fitStep cfg inp)^[n] s) := by
  induction n with
  | zero => exact .base s
  | succ n ih =>
    rw [Function.iterate_succ_apply']
    exact .step ih

theorem fitRun_runFit {V : Type} (cfg : FitConfig V) (inp : FitInput V) :
    FitRun cfg inp inp.maxIters (initFitState cfg inp) (runFit cfg inp) :=
  fitRun_iterate cfg inp inp.maxIters (initFitState cfg inp)

/-- C9: the fitting state machine is deterministic — two runs of the loop from
their initial states, on inputs with identical target vertices, identical
initial guesses, identical exclusion sets, identical flags, budgets and the
same fixed/seeded vertex subsample, reach final states with identical pose,
identical phenotype dictionary and identical reconstructed vertices. -/
theorem fitting_deterministic {V : Type} (cfg : FitConfig V) (a b : FitInput V)
    (t t' : FitState V)
    (h1 : a.target = b.target) (h2 : a.initGuess = b.initGuess)
    (h3 : a.excluded = b.excluded) (h4 : a.optimize = b.optimize)
    (h5 : a.maxIters = b.maxIters) (h6 : a.sampleIdx = b.sampleIdx)
    (ra : FitRun cfg a a.maxIters (initFitState cfg a) t)
    (rb : FitRun cfg b b.maxIters (initFitState cfg b) t') :
    t.pose = t'.pose ∧ t.phen = t'.phen ∧ t.verts = t'.verts := by
  have hab : a = b := by
    cases a
    cases b
    simp_all
  subst hab
  have ht := fitRun_unique ra rb
  subst ht
  exact ⟨rfl, rfl, rfl⟩

theorem fitting_deterministic_witness :
    (runFit trivialCfg inpDetWit).pose = (runFit trivialCfg inpDetWit).pose
    ∧ (runFit trivialCfg inpDetWit).phen = (runFit trivialCfg inpDetWit).phen
    ∧ (runFit trivialCfg inpDetWit).verts = (runFit trivialCfg inpDetWit).verts :=
  fitting_deterministic trivialCfg inpDetWit inpDetWit _ _ rfl rfl rfl rfl rfl rfl
    (fitRun_runFit trivialCfg inpDetWit) (fitRun_runFit trivialCfg inpDetWit)

theorem getD_map {α β : Type} (f : α → β) (l : List α) (n : ℕ) (d : α) :
    (l.map f).getD n (f d) = f (l.getD n d) := by
  induction l generalizing n with
  | nil => simp
  | cons a rest ih =>
    cases n with
    | zero => simp
    | succ n =>
      rw [List.map_cons, List.getD_cons_succ, List.getD_cons_succ]
      exact ih n

/-- C7: the sanitization applied to the finite-difference Jacobian before the
solve replaces every entry by its `nan_to_num` image — a finite entry passes
through with its value, every non-finite entry becomes 0 — so the matrix
reaching the solver consists only of finite values and the bounded loop
completes with finite phenotype values. -/
theorem jacobian_sanitization_spec (raw : List (List FVal)) (i j : ℕ) :
    ((sanitizeJacobian raw).getD i []).getD j 0
      = fvalToRat ((raw.getD i []).getD j (FVal.fin 0))
    ∧ (∀ e : FVal, e.isFinite = false → fvalToRat e = 0)
    ∧ (∀ q : ℚ, fvalToRat (FVal.fin q) = q) := by
  refine ⟨?_, ?_, fun q => rfl⟩
  · show ((raw.map (List.map fvalToRat)).getD i (List.map fvalToRat [])).getD j
        (fvalToRat (FVal.fin 0)) = fvalToRat ((raw.getD i []).getD j (FVal.fin 0))
    rw [getD_map, getD_map]
  · intro e he
    cases e with
    | fin q => simp [FVal.isFinite] at he
    | nan => rfl
    | posInf => rfl
    | negInf => rfl

theorem jacobian_sanitization_witness :
    ((sanitizeJacobian [[FVal.nan, FVal.fin 5]]).getD 0 []).getD 0 0 = 0
    ∧ fvalToRat FVal.nan = 0 := by
  constructor
  · have h := (jacobian_sanitization_spec [[FVal.nan, FVal.fin 5]] 0 0).1
    rw [h]
    rfl
  · exact (jacobian_sanitization_spec [[FVal.nan, FVal.fin 5]] 0 0).2.1 FVal.nan rfl

theorem foldl_best_le {V : Type} (cfg : FitConfig V) (inp : FitInput V) :
    ∀ (l : List ℚ) (b : FitState V),
      errOf cfg inp (l.foldl (fun best a =>
          if errOf cfg inp (anchorRun cfg inp a) < errOf cfg inp best then anchorRun cfg inp a
          else best) b) ≤ errOf cfg inp b
      ∧ ∀ a ∈ l, errOf cfg inp (l.foldl (fun best a =>
          if errOf cfg inp (anchorRun cfg inp a) < errOf cfg inp best then anchorRun cfg inp a
          else best) b) ≤ errOf cfg inp (anchorRun cfg inp a) := by
  intro l
  induction l with
  | nil =>
    intro b
    exact ⟨le_refl _, by simp⟩
  | cons a rest ih =>
    intro b
    rw [List.foldl_cons]
    by_cases hc : errOf cfg inp (anchorRun cfg inp a) < errOf cfg inp b
    · rw [if_pos hc]
      obtain ⟨ih1, ih2⟩ := ih (anchorRun cfg inp a)
      refine ⟨le_trans ih1 (le_of_lt hc), fun x hx => ?_⟩
      rcases List.mem_cons.mp hx with rfl | hx
      · exact ih1
      · exact ih2 x hx
    · rw [if_neg hc]
      obtain ⟨ih1, ih2⟩ := ih b
      refine ⟨ih1, fun x hx => ?_⟩
      rcases List.mem_cons.mp hx with rfl | hx
      · exact le_trans ih1 (le_of_not_lt hc)
      · exact ih2 x hx

theorem bestAnchor_min {V : Type} (cfg : FitConfig V) (inp : FitInput V)
    (a0 : ℚ) (rest : List ℚ) :
    ∀ a ∈ a0 :: rest,
      errOf cfg inp (bestAnchorState cfg inp a0 rest)
        ≤ errOf cfg inp (anchorRun cfg inp a) := by
  intro a ha
  unfold bestAnchorState
  rcases List.mem_cons.mp ha with rfl | ha
  · exact (foldl_best_le cfg inp rest (anchorRun cfg inp a)).1
  · exact (foldl_best_le cfg inp rest (anchorRun cfg inp a0)).2 a ha

/-- C8 amended: the age-anchor search selects the anchor run with the lowest
mean reconstruction error among all anchors, so whenever the final refinement
run does not increase the error of the selected result, the refined error is
at most every single-anchor error from the search.  (The algorithm gives no
guarantee that the refinement run is non-worsening — see the
counterexample.) -/
theorem age_anchor_refined_error {V : Type} (cfg : FitConfig V) (inp : FitInput V)
    (a0 : ℚ) (rest : List ℚ)
    (h : errOf cfg inp (fitWithAgeAnchorSearch cfg inp a0 rest)
          ≤ errOf cfg inp (bestAnchorState cfg inp a0 rest)) :
    ∀ a ∈ a0 :: rest,
      errOf cfg inp (fitWithAgeAnchorSearch cfg inp a0 rest)
        ≤ errOf cfg inp (anchorRun cfg inp a) :=
  fun a ha => le_trans h (bestAnchor_min cfg inp a0 rest a ha)

theorem age_anchor_refined_error_witness :
    errOf errZeroCfg inpAnchor (fitWithAgeAnchorSearch errZeroCfg inpAnchor 0 [])
      ≤ errOf errZeroCfg inpAnchor (anchorRun errZeroCfg inpAnchor 0) :=
  age_anchor_refined_error errZeroCfg inpAnchor 0 [] (le_of_eq rfl) 0
    (List.mem_cons_self 0 [])

/-- C8 counterexample: with the concrete one-parameter instantiation of the
loop, the single anchor 0.01 is fitted with age pinned to error 0.0001, but
the final refinement run — age unpinned, with the solver proposing a unit
update — moves age to the clamp bound 0.99 and ends with error 0.9801, so the
refined error exceeds the best single-anchor error from the search. -/
theorem age_anchor_counterexample :
    ¬ (errOf trivialCfg inpAnchor (fitWithAgeAnchorSearch trivialCfg inpAnchor (1 / 100) [])
        ≤ errOf trivialCfg inpAnchor (bestAnchorState trivialCfg inpAnchor (1 / 100) [])) := by
  have h1 : (fitWithAgeAnchorSearch trivialCfg inpAnchor (1 / 100) []).verts
      = clampPhenotype (1 / 100 + 1) := rfl
  have h2 : (bestAnchorState trivialCfg inpAnchor (1 / 100) []).verts = 1 / 100 := rfl
  have hc : clampPhenotype (1 / 100 + 1) = 99 / 100 := by
    norm_num [clampPhenotype, rmin, rmax]
  rw [errOf, errOf, h1, h2, hc]
  norm_num [trivialCfg, inpAnchor]

/-- C10: the exclusion set handed to the regressor by
`ParameterOptimizer.optimize` contains a name exactly when the confidences
dictionary binds it to a confidence strictly below the threshold; with no
confidences dictionary nothing is excluded; and a name whose confidence
equals the threshold is not excluded (it stays in the optimization). -/
theorem confidence_exclusion_rule (cs : List (String × ℚ)) (threshold : ℚ)
    (name : String) :
    (name ∈ computeExcludedPhenotypes (some cs) threshold ↔
      ∃ c, (name, c) ∈ cs ∧ c < threshold)
    ∧ computeExcludedPhenotypes none threshold = []
    ∧ name ∉ computeExcludedPhenotypes (some [(name, threshold)]) threshold := by
  refine ⟨?_, rfl, ?_⟩
  · rw [computeExcludedPhenotypes]
    constructor
    · intro h
      obtain ⟨pc, hpc, hname⟩ := List.mem_map.mp h
      obtain ⟨hmem, hlt⟩ := List.mem_filter.mp hpc
      refine ⟨pc.2, ?_, of_decide_eq_true hlt⟩
      rw [← hname]
      exact hmem
    · rintro ⟨c, hmem, hlt⟩
      exact List.mem_map.mpr ⟨(name, c),
        List.mem_filter.mpr ⟨hmem, decide_eq_true hlt⟩, rfl⟩
  · rw [computeExcludedPhenotypes]
    intro h
    obtain ⟨pc, hpc, hname⟩ := List.mem_map.mp h
    obtain ⟨hmem, hlt⟩ := List.mem_filter.mp hpc
    rcases List.mem_singleton.mp hmem with rfl
    exact absurd (of_decide_eq_true hlt) (lt_irrefl threshold)

theorem confidence_exclusion_rule_witness :
    "age" ∈ computeExcludedPhenotypes (some [("age", 3 / 10)]) defaultConfidenceThreshold :=
  (confidence_exclusion_rule [("age", 3 / 10)] defaultConfidenceThreshold "age").1.mpr
    ⟨3 / 10, List.mem_singleton.mpr rfl, by norm_num [defaultConfidenceThreshold]⟩
